import Mathlib

/-!
Verification of the xmldoc core (src/unnamed/part_001, the TypeScript
module `xmldoc.ts`): the SAX-event-driven tree builder, the node model
with its query layer, and the text serializer.

JavaScript strings are embedded as lists of characters (`JStr`), so that
`s.length`, `s.substring(0, k)`, `s.trim()` and concatenation become
`List.length`, `List.take k`, `jsTrim` and `++`.
-/

namespace Xmldoc

/-- A JavaScript string, embedded as its list of characters. -/
abbrev JStr := List Char

/-- Write a JavaScript string literal. -/
def js (s : String) : JStr := s.toList

/-- JavaScript `String.prototype.trim`: strip leading and trailing
whitespace. -/
def jsTrim (l : JStr) : JStr :=
  ((l.dropWhile Char.isWhitespace).reverse.dropWhile Char.isWhitespace).reverse

/-- The `XmlStringOptions` interface: the four formatting flags, each
defaulting to the falsy `undefined` when absent, read as `false`. -/
structure XmlStringOptions where
  compressed : Bool
  trimmed : Bool
  preserveWhitespace : Bool
  html : Bool

/-- The ellipsis character appended by `formatText` when truncating. -/
def ellipsisChar : Char := Char.ofNat 8230

/-- One character's image under `escapeXML`. The source chains five global
`String.replace` calls (for the five characters, ampersand first); since no
replacement string contains a character that a later replacement targets,
the chain acts independently on each character of the input and equals this
character-wise map. -/
def escapeChar (c : Char) : JStr :=
  if c = Char.ofNat 38 then js "&amp;"
  else if c = Char.ofNat 60 then js "&lt;"
  else if c = Char.ofNat 62 then js "&gt;"
  else if c = Char.ofNat 39 then js "&apos;"
  else if c = Char.ofNat 34 then js "&quot;"
  else [c]

/-- `escapeXML(value)`: escape the XML special characters to entity form. -/
def escapeXML (value : JStr) : JStr :=
  (value.map escapeChar).flatten

/-- `formatText(text, options)`: truncate to 25 characters plus an ellipsis
when the `trimmed` option is on and the text given (already escaped by the
callers that escape) is longer than 25 characters; then strip surrounding
whitespace unless `preserveWhitespace` is on. -/
def formatText (text : JStr) (options : XmlStringOptions) : JStr :=
  let finalText := text
  let finalText :=
    if options.trimmed ∧ 25 < text.length then
      jsTrim (finalText.take 25) ++ [ellipsisChar]
    else finalText
  let finalText :=
    if !options.preserveWhitespace then jsTrim finalText else finalText
  finalText

/-- `XmlTextNode.toString`: `formatText(escapeXML(this.text), options)`. -/
def textNodeToString (text : JStr) (options : XmlStringOptions) : JStr :=
  formatText (escapeXML text) options

/-- `XmlCDataNode.toString`: the CDATA wrapper around
`formatText(this.cdata, options)` — the content is not escaped. -/
def cdataNodeToString (cdata : JStr) (options : XmlStringOptions) : JStr :=
  js "<![CDATA[" ++ formatText cdata options ++ js "]]>"

/-- `XmlCommentNode.toString`: the comment wrapper around
`formatText(escapeXML(this.comment), options)`. -/
def commentNodeToString (comment : JStr) (options : XmlStringOptions) : JStr :=
  js "<!--" ++ formatText (escapeXML comment) options ++ js "-->"

/-- An XML node: the closed union of the four node classes. An element
carries `name`, `attr`, `val`, `children` and the four nullable position
fields set by the `XmlElement` constructor. -/
inductive XmlNode where
  | element (name : JStr) (attr : List (JStr × JStr)) (val : JStr)
      (children : List XmlNode)
      (line : Option Nat) (column : Option Nat) (position : Option Nat)
      (startTagPosition : Option Nat)
  | text (content : JStr)
  | cdata (content : JStr)
  | comment (content : JStr)

/-- The `type` tag of a node ("element", "text", "cdata", "comment"). -/
def XmlNode.typeOf : XmlNode → JStr
  | .element _ _ _ _ _ _ _ _ => js "element"
  | .text _ => js "text"
  | .cdata _ => js "cdata"
  | .comment _ => js "comment"

/-- The `name` property: defined on elements only (`undefined` elsewhere). -/
def XmlNode.nameOf : XmlNode → Option JStr
  | .element n _ _ _ _ _ _ _ => some n
  | _ => none

/-- The `attr` property of an element (the empty mapping elsewhere). -/
def XmlNode.attrOf : XmlNode → List (JStr × JStr)
  | .element _ a _ _ _ _ _ _ => a
  | _ => []

/-- The `val` property of an element (empty elsewhere). -/
def XmlNode.valOf : XmlNode → JStr
  | .element _ _ v _ _ _ _ _ => v
  | _ => []

/-- The `children` array of an element (empty elsewhere). -/
def XmlNode.childrenOf : XmlNode → List XmlNode
  | .element _ _ _ ch _ _ _ _ => ch
  | _ => []

/-- Lookup in the attribute mapping, embedded as an association list
(`attr[name]`, `undefined` when absent). -/
def attrLookup : List (JStr × JStr) → JStr → Option JStr
  | [], _ => none
  | (k, v) :: rest, name => if k = name then some v else attrLookup rest name

/-- JavaScript truthiness of `attr[name]`: false for `undefined` and for
the empty string, true for every other string. -/
def jsTruthy : Option JStr → Bool
  | none => false
  | some v => !v.isEmpty

/-- The loop of `childNamed`: first child with `type === "element"` and
`name === name`. -/
def childNamedGo (name : JStr) : List XmlNode → Option XmlNode
  | [] => none
  | c :: rest =>
    match c with
    | .element n _ _ _ _ _ _ _ =>
      if n = name then some c else childNamedGo name rest
    | _ => childNamedGo name rest

/-- `XmlElement.childNamed(name)`. -/
def childNamed (e : XmlNode) (name : JStr) : Option XmlNode :=
  childNamedGo name e.childrenOf

/-- The loop of `childrenNamed`: collect every child with
`type === "element"` and a matching `name`. -/
def childrenNamedGo (name : JStr) : List XmlNode → List XmlNode
  | [] => []
  | c :: rest =>
    match c with
    | .element n _ _ _ _ _ _ _ =>
      if n = name then c :: childrenNamedGo name rest
      else childrenNamedGo name rest
    | _ => childrenNamedGo name rest

/-- `XmlElement.childrenNamed(name)`. -/
def childrenNamed (e : XmlNode) (name : JStr) : List XmlNode :=
  childrenNamedGo name e.childrenOf

/-- The loop of `childWithAttribute`: `value` models the optional second
argument (`none` = the argument was omitted, i.e. `undefined`). The
condition is the source's
`(value !== undefined && attr[name] === value) ||
 (value === undefined && attr[name])` — note the second disjunct tests the
attribute value for truthiness, not mere presence. -/
def childWithAttributeGo (name : JStr) (value : Option JStr) :
    List XmlNode → Option XmlNode
  | [] => none
  | c :: rest =>
    match c with
    | .element _ a _ _ _ _ _ _ =>
      if (match value with
          | some v => decide (attrLookup a name = some v)
          | none => jsTruthy (attrLookup a name)) then some c
      else childWithAttributeGo name value rest
    | _ => childWithAttributeGo name value rest

/-- `XmlElement.childWithAttribute(name, value?)`. -/
def childWithAttribute (e : XmlNode) (name : JStr) (value : Option JStr) :
    Option XmlNode :=
  childWithAttributeGo name value e.childrenOf

/-- The separator of dot-paths. -/
def dotChar : Char := Char.ofNat 46

/-- The attribute marker of `valueWithPath`. -/
def atChar : Char := Char.ofNat 64

/-- The loop of `descendantWithPath`: for each component, if the current
descendant is defined and an element, step to `childNamed(component)`;
otherwise return `undefined` at once. -/
def descendGo : Option XmlNode → List JStr → Option XmlNode
  | d, [] => d
  | some d, seg :: rest =>
    if d.typeOf = js "element" then descendGo (childNamed d seg) rest
    else none
  | none, _ :: _ => none

/-- `XmlElement.descendantWithPath(path)`: split on the dot and walk. -/
def descendantWithPath (e : XmlNode) (path : JStr) : Option XmlNode :=
  descendGo (some e) (path.splitOn dotChar)

/-- `XmlElement.valueWithPath(path)`: split on `@`; resolve the path part
with `descendantWithPath`; return the attribute's value when an attribute
part was given, else the element's `val`; `undefined` when the path does
not resolve. -/
def valueWithPath (e : XmlNode) (path : JStr) : Option JStr :=
  let components := path.splitOn atChar
  match descendantWithPath e (components.headD []) with
  | some d =>
    match components with
    | _ :: attrName :: _ => attrLookup d.attrOf attrName
    | _ => some d.valOf
  | none => none

/-- A JavaScript value an `eachChild` iterator may return: enough of the
value space to distinguish the strict boolean `false` from the other falsy
values (`undefined`, `0`, the empty string). -/
inductive JsValue where
  | undef
  | boolean (b : Bool)
  | number (n : Int)
  | str (s : JStr)
deriving DecidableEq

/-- The loop of `eachChild`, reified as the ordered trace of iterator
calls: each visited child paired with its index in `children`. A child
whose `type` is not `"element"` is skipped without a call; the loop
returns right after a call whose result is strictly `=== false` (that call
still appears in the trace). -/
def eachChildGo (f : XmlNode → Nat → List XmlNode → JsValue)
    (all : List XmlNode) : List XmlNode → Nat → List (XmlNode × Nat)
  | [], _ => []
  | c :: rest, i =>
    match c with
    | .element _ _ _ _ _ _ _ _ =>
      if f c i all = JsValue.boolean false then [(c, i)]
      else (c, i) :: eachChildGo f all rest (i + 1)
    | _ => eachChildGo f all rest (i + 1)

/-- `XmlElement.eachChild(iterator)`: the trace of calls the loop makes,
in order. -/
def eachChildTrace (e : XmlNode)
    (f : XmlNode → Nat → List XmlNode → JsValue) : List (XmlNode × Nat) :=
  eachChildGo f e.childrenOf e.childrenOf 0

/-! ## The tree builder

The SAX lexer is an external collaborator; its output is embedded as a
list of events, each carrying the data the corresponding handler receives.
An open-tag event also carries the lexer's four position counters as they
read when the event fired (`parser.line`, `parser.column`,
`parser.position`, `parser.startTagPosition`).

The source routes events through the mutable module-level `delegates`
array (front = innermost open element, back = the document) and mutates
the element objects in place; `_opentag` appends the new child to its
parent immediately and unshifts it, `_closetag` merely shifts. The
embedding keeps each open element as a frame on an explicit stack and
appends the finished node to its parent when the frame is popped (or at
materialization time, for frames still open when input ends). This yields
the same tree: while a child is open, its parent is not the front
delegate, so the parent receives no other children between the child's
open and its close. -/

/-- The lexer's position counters at the moment an open-tag event fired. -/
structure PosInfo where
  line : Nat
  column : Nat
  position : Nat
  startTagPosition : Nat
deriving DecidableEq

/-- One lexical event as delivered to the handlers that
`addParserEvents` installs. -/
inductive SaxEvent where
  | opentag (name : JStr) (attributes : List (JStr × JStr)) (pos : PosInfo)
  | closetag
  | text (s : JStr)
  | cdata (s : JStr)
  | comment (s : JStr)
  | doctype (s : JStr)
  | error (msg : JStr)

/-- `true` exactly for an error event. -/
def SaxEvent.isErrorEvent : SaxEvent → Bool
  | .error _ => true
  | _ => false

/-- `true` exactly for a doctype event. -/
def SaxEvent.isDoctypeEvent : SaxEvent → Bool
  | .doctype _ => true
  | _ => false

/-- A plain `XmlElement` that is currently open (on the delegate stack):
its fields so far. The position fields mirror the constructor's
`parser ? parser.line : null` (etc.). -/
structure ElemFrame where
  name : JStr
  attr : List (JStr × JStr)
  val : JStr
  children : List XmlNode
  line : Option Nat
  column : Option Nat
  position : Option Nat
  startTagPosition : Option Nat

/-- The `XmlElement` constructor: `new XmlElement(tag, parser?)`. When no
parser is passed the four position fields are null. -/
def mkElemFrame (name : JStr) (attributes : List (JStr × JStr))
    (parser : Option PosInfo) : ElemFrame :=
  { name := name, attr := attributes, val := [], children := [],
    line := parser.map PosInfo.line,
    column := parser.map PosInfo.column,
    position := parser.map PosInfo.position,
    startTagPosition := parser.map PosInfo.startTagPosition }

/-- The finished node a frame becomes once closed. -/
def closeFrame (f : ElemFrame) : XmlNode :=
  .element f.name f.attr f.val f.children f.line f.column f.position
    f.startTagPosition

/-- The `XmlDocument` under construction: an element plus `doctype`. Its
own position fields are null (the super call passes no parser). -/
structure DocFrame where
  name : JStr
  attr : List (JStr × JStr)
  val : JStr
  children : List XmlNode
  doctype : JStr

/-- Where the document stands relative to the delegate stack:
`docPresent frames` means the stack is `frames ++ [document]` (front =
innermost open element); `docRemoved` means a close-tag event shifted the
document off and the stack is empty. Only the front delegate receives
events, and every handler call is guarded by `delegates[0]?.`, so with the
stack empty events other than doctype are dropped. -/
inductive StackSt where
  | docPresent (frames : List ElemFrame)
  | docRemoved

/-- The builder's whole mutable state: the document object (which survives
even after being shifted off the stack — the constructor still returns
`this`) and the stack. -/
structure BuildState where
  doc : DocFrame
  stack : StackSt

/-- The errors the construction entry point can raise. -/
inductive BuildError where
  | emptyInput
  | saxError (msg : JStr)
  | typeError
deriving DecidableEq

/-- One event dispatched to `delegates[0]`, following `addParserEvents`
and the `_opentag`/`_closetag`/`_text`/`_cdata`/`_comment`/`_doctype`/
`_error` handlers of `XmlElement` and `XmlDocument`:

* open-tag on the document with its name still unset adopts the tag
  (`XmlDocument._opentag`); otherwise `XmlElement._opentag` constructs the
  child as `new XmlElement(tag)` — without passing the parser, so the
  child's position fields are null whatever the event's counters say;
* close-tag shifts the front delegate off, whatever it is; with the stack
  empty `delegates[0]?.` makes it a no-op;
* text/cdata append to the front delegate's `val` and children;
* a doctype event reads `delegates[0]._doctype`: on the document it
  accumulates, on a plain element the field is undefined and the guarded
  call is a no-op, and on an empty stack reading the property of
  `undefined` throws a TypeError;
* an error event throws (`_error`), unless the stack is empty, in which
  case `delegates[0]?.` drops it. -/
def step (st : BuildState) (ev : SaxEvent) : Except BuildError BuildState :=
  match ev with
  | .opentag n a _pos =>
    match st.stack with
    | .docRemoved => .ok st
    | .docPresent [] =>
      if st.doc.name.isEmpty then
        .ok { st with doc := { st.doc with name := n, attr := a } }
      else
        .ok { st with stack := .docPresent [mkElemFrame n a none] }
    | .docPresent (f :: fs) =>
      .ok { st with stack := .docPresent (mkElemFrame n a none :: f :: fs) }
  | .closetag =>
    match st.stack with
    | .docRemoved => .ok st
    | .docPresent [] => .ok { st with stack := .docRemoved }
    | .docPresent [f] =>
      .ok { doc := { st.doc with children := st.doc.children ++ [closeFrame f] },
            stack := .docPresent [] }
    | .docPresent (f :: g :: fs) =>
      let g' := { g with children := g.children ++ [closeFrame f] }
      .ok { st with stack := .docPresent (g' :: fs) }
  | .text s =>
    match st.stack with
    | .docRemoved => .ok st
    | .docPresent [] =>
      let d' := { st.doc with
                  val := st.doc.val ++ s,
                  children := st.doc.children ++ [XmlNode.text s] }
      .ok { st with doc := d' }
    | .docPresent (f :: fs) =>
      let f' := { f with
                  val := f.val ++ s,
                  children := f.children ++ [XmlNode.text s] }
      .ok { st with stack := .docPresent (f' :: fs) }
  | .cdata s =>
    match st.stack with
    | .docRemoved => .ok st
    | .docPresent [] =>
      let d' := { st.doc with
                  val := st.doc.val ++ s,
                  children := st.doc.children ++ [XmlNode.cdata s] }
      .ok { st with doc := d' }
    | .docPresent (f :: fs) =>
      let f' := { f with
                  val := f.val ++ s,
                  children := f.children ++ [XmlNode.cdata s] }
      .ok { st with stack := .docPresent (f' :: fs) }
  | .comment s =>
    match st.stack with
    | .docRemoved => .ok st
    | .docPresent [] =>
      let d' := { st.doc with children := st.doc.children ++ [XmlNode.comment s] }
      .ok { st with doc := d' }
    | .docPresent (f :: fs) =>
      let f' := { f with children := f.children ++ [XmlNode.comment s] }
      .ok { st with stack := .docPresent (f' :: fs) }
  | .doctype s =>
    match st.stack with
    | .docRemoved => .error .typeError
    | .docPresent [] =>
      .ok { st with doc := { st.doc with doctype := st.doc.doctype ++ s } }
    | .docPresent (_ :: _) => .ok st
  | .error msg =>
    match st.stack with
    | .docRemoved => .ok st
    | .docPresent _ => .error (.saxError msg)

/-- Feed a whole event list through the builder, stopping at the first
thrown error (a throw aborts `parser.write`). -/
def processEvents (evs : List SaxEvent) (st : BuildState) :
    Except BuildError BuildState :=
  match evs with
  | [] => .ok st
  | e :: rest =>
    match step st e with
    | .ok st' => processEvents rest st'
    | .error err => .error err

/-- The document as the `XmlDocument` constructor initializes it:
`super({name: "", attributes: {}})`, empty doctype. -/
def initDoc : DocFrame :=
  { name := [], attr := [], val := [], children := [], doctype := [] }

/-- `delegates = [this]`: the fresh document is the sole stack entry. -/
def initState : BuildState :=
  { doc := initDoc, stack := .docPresent [] }

/-- Fold an open frame into the frames below it, innermost first: in the
source the nodes are already linked (children are attached at open-tag
time), so a stack of still-open frames denotes this nested element. -/
def collapseTop : ElemFrame → List ElemFrame → ElemFrame
  | f, [] => f
  | f, g :: rest =>
    collapseTop { g with children := g.children ++ [closeFrame f] } rest

/-- The tree the constructor's caller sees in `this` once `write`
returns: open frames are nested into the document's children. -/
def materialize (st : BuildState) : DocFrame :=
  match st.stack with
  | .docRemoved => st.doc
  | .docPresent [] => st.doc
  | .docPresent (f :: rest) =>
    { st.doc with children :=
        st.doc.children ++ [closeFrame (collapseTop f rest)] }

/-- The document read as a node (its position fields are null: the
constructor's super call passes no parser). -/
def docToNode (d : DocFrame) : XmlNode :=
  .element d.name d.attr d.val d.children none none none none

/-- The `XmlDocument` constructor: trim the input, throw
`"No XML to parse!"` when the trimmed text is empty, otherwise feed the
lexer's events for the trimmed text through the builder and return the
document. The lexer is abstract: a function from the written text to the
event list it emits. -/
def xmlDocumentNew (lexer : JStr → List SaxEvent) (xml : JStr) :
    Except BuildError DocFrame :=
  let xml := jsTrim xml
  if xml.isEmpty then .error .emptyInput
  else
    match processEvents (lexer xml) initState with
    | .ok st => .ok (materialize st)
    | .error e => .error e

/-! ## Specification-side predicates and invariants -/

/-- The concatenation, in order and with no separator, of the `text`/`cdata`
content of the Text and CData nodes of a list (elements and comments
contribute nothing). -/
def textCdataConcat : List XmlNode → JStr
  | [] => []
  | XmlNode.text s :: rest => s ++ textCdataConcat rest
  | XmlNode.cdata s :: rest => s ++ textCdataConcat rest
  | _ :: rest => textCdataConcat rest

/-- The claimed `val` invariant, recursively at every element of a tree:
an element's `val` is exactly the concatenation of the content of its
direct Text/CData children. -/
inductive ValOk : XmlNode → Prop where
  | text (s : JStr) : ValOk (.text s)
  | cdata (s : JStr) : ValOk (.cdata s)
  | comment (s : JStr) : ValOk (.comment s)
  | element (n : JStr) (a : List (JStr × JStr)) (v : JStr)
      (ch : List XmlNode) (l c p st : Option Nat) :
      v = textCdataConcat ch → (∀ x ∈ ch, ValOk x) →
      ValOk (.element n a v ch l c p st)

/-- The invariant on an open frame. -/
def FrameOk (f : ElemFrame) : Prop :=
  f.val = textCdataConcat f.children ∧ ∀ x ∈ f.children, ValOk x

/-- The invariant on the document under construction. -/
def DocOk (d : DocFrame) : Prop :=
  d.val = textCdataConcat d.children ∧ ∀ x ∈ d.children, ValOk x

/-- The invariant on the whole builder state. -/
def StateOk (st : BuildState) : Prop :=
  DocOk st.doc ∧
    match st.stack with
    | .docPresent fs => ∀ f ∈ fs, FrameOk f
    | .docRemoved => True

/-- `true` exactly for an Element child whose `name` is `name` (the loop
condition of `childrenNamed`, as a predicate). -/
def isElementNamed (name : JStr) (c : XmlNode) : Bool :=
  match c with
  | .element n _ _ _ _ _ _ _ => decide (n = name)
  | _ => false

/-- `true` exactly for an Element child whose attribute `name` is truthy
(defined and non-empty) — what `childWithAttribute` with no value argument
actually selects. -/
def elemAttrTruthy (name : JStr) (c : XmlNode) : Bool :=
  match c with
  | .element _ a _ _ _ _ _ _ => jsTruthy (attrLookup a name)
  | _ => false

/-- `true` exactly for an Element child whose attribute `name` equals `v`
— what `childWithAttribute` with a value argument selects. -/
def elemAttrEq (name v : JStr) (c : XmlNode) : Bool :=
  match c with
  | .element _ a _ _ _ _ _ _ => decide (attrLookup a name = some v)
  | _ => false

/-- Path resolution as the spec states it: follow `childNamed` for each
segment in turn. -/
inductive ResolvePath : XmlNode → List JStr → XmlNode → Prop where
  | nil (e : XmlNode) : ResolvePath e [] e
  | cons (e m d : XmlNode) (seg : JStr) (rest : List JStr) :
      childNamed e seg = some m → ResolvePath m rest d →
      ResolvePath e (seg :: rest) d

/-- The element children of a list, paired with their indices counted from
`i`, in order (the calls `eachChild` makes when nothing stops it). -/
def elementEntriesFrom (i : Nat) : List XmlNode → List (XmlNode × Nat)
  | [] => []
  | c :: rest =>
    match c with
    | .element _ _ _ _ _ _ _ _ => (c, i) :: elementEntriesFrom (i + 1) rest
    | _ => elementEntriesFrom (i + 1) rest

/-- The element children of a list with their indices, in document order. -/
def elementEntries (l : List XmlNode) : List (XmlNode × Nat) :=
  elementEntriesFrom 0 l

/-- Modelled from the claim's words: visit entries in order and stop —
inclusively — at the first call whose result is strictly the boolean
`false`. -/
def stopAtFalse (f : XmlNode → Nat → List XmlNode → JsValue)
    (all : List XmlNode) : List (XmlNode × Nat) → List (XmlNode × Nat)
  | [] => []
  | p :: rest =>
    if f p.1 p.2 all = JsValue.boolean false then [p]
    else p :: stopAtFalse f all rest

/-! ## Concrete fixtures used by counterexamples and witnesses -/

/-- A lexer emitting the events of `<hello>world</hello>`. -/
def lexerC1 : JStr → List SaxEvent := fun _ =>
  [SaxEvent.opentag (js "hello") [] ⟨1, 7, 7, 1⟩,
   SaxEvent.text (js "world"), SaxEvent.closetag]

/-- The document built from `<hello>world</hello>`. -/
def docC1 : DocFrame :=
  { name := js "hello", attr := [], val := js "world",
    children := [XmlNode.text (js "world")], doctype := [] }

/-- A lexer emitting the events of `<root><child/></root>`, the open-tag
events carrying the lexer's counters. -/
def lexerC2 : JStr → List SaxEvent := fun _ =>
  [SaxEvent.opentag (js "root") [] ⟨1, 6, 6, 1⟩,
   SaxEvent.opentag (js "child") [] ⟨1, 14, 14, 7⟩,
   SaxEvent.closetag, SaxEvent.closetag]

/-- A lexer emitting the events of `<a><b>`: the input ends with `<b>`
(and `<a>`) still open, and a real strict SAX lexer emits no error from
`write` alone (`end`/`close` is never called by the constructor). -/
def lexerC4 : JStr → List SaxEvent := fun _ =>
  [SaxEvent.opentag (js "a") [] ⟨1, 3, 3, 1⟩,
   SaxEvent.opentag (js "b") [] ⟨1, 6, 6, 4⟩]

/-- The options `{trimmed: true}`. -/
def trimmedOpts : XmlStringOptions :=
  { compressed := false, trimmed := true, preserveWhitespace := false,
    html := false }

/-- A child element whose attribute `a` is defined but bound to the empty
string (as parsed from `<c a=""/>`). -/
def c7Child : XmlNode :=
  .element (js "c") [(js "a", [])] [] [] none none none none

/-- A parent element whose only child is `c7Child`. -/
def c7Parent : XmlNode :=
  .element (js "p") [] [] [c7Child] none none none none

/-- The `<books>` element of
`<books><book/>text<good-book/><book/></books>`. -/
def booksC8 : XmlNode :=
  .element (js "books") [] (js "text")
    [.element (js "book") [] [] [] none none none none,
     .text (js "text"),
     .element (js "good-book") [] [] [] none none none none,
     .element (js "book") [] [] [] none none none none]
    none none none none

/-- The `<name>` element of the README's example
`<book><author><name isProper="true">George R. R. Martin</name></author></book>`. -/
def nameC9 : XmlNode :=
  .element (js "name") [(js "isProper", js "true")]
    (js "George R. R. Martin") [XmlNode.text (js "George R. R. Martin")]
    none none none none

/-- Its `<author>` parent. -/
def authorC9 : XmlNode :=
  .element (js "author") [] [] [nameC9] none none none none

/-- Its `<book>` grandparent. -/
def bookC9 : XmlNode :=
  .element (js "book") [] [] [authorC9] none none none none

/-- The document the build of `<root><child/></root>` produces: note the
child element's four null position fields. -/
def docC2 : DocFrame :=
  { name := js "root", attr := [], val := [],
    children := [XmlNode.element (js "child") [] [] [] none none none none],
    doctype := [] }

/-- The document after the events `open r; close; close`. -/
def docC3 : DocFrame :=
  { name := js "r", attr := [], val := [], children := [], doctype := [] }

/-- The builder state after `open r; close; close`: no error was raised
and the Document has been shifted off the stack. -/
def stateC3 : BuildState :=
  { doc := docC3, stack := StackSt.docRemoved }

/-- The partially built document the constructor returns for `<a><b>`. -/
def docC4 : DocFrame :=
  { name := js "a", attr := [], val := [],
    children := [XmlNode.element (js "b") [] [] [] none none none none],
    doctype := [] }

/-! ## Theorems -/

theorem step_ne_emptyInput (st : BuildState) (e : SaxEvent) :
    step st e ≠ Except.error BuildError.emptyInput := by
  rcases st with ⟨d, fs | _⟩
  · cases e <;> rcases fs with _ | ⟨f, _ | ⟨g, fs⟩⟩ <;>
      simp only [step] <;> try simp
    all_goals split <;> simp
  · cases e <;> simp [step]

theorem processEvents_ne_emptyInput (evs : List SaxEvent) (st : BuildState) :
    processEvents evs st ≠ Except.error BuildError.emptyInput := by
  induction evs generalizing st with
  | nil => simp [processEvents]
  | cons e rest ih =>
    simp only [processEvents]
    cases h : step st e with
    | ok st' => exact ih st'
    | error err =>
      intro hc
      exact step_ne_emptyInput st e (by rw [h]; exact congrArg _ (by injection hc))

/-- C5: the constructor raises the empty-input error exactly when the
input trims to the empty string, and in that case it does so without
consulting the lexer at all (the result is the same for every lexer). -/
theorem c5_emptyInput_iff (lexer lexer2 : JStr → List SaxEvent) (xml : JStr) :
    (xmlDocumentNew lexer xml = Except.error BuildError.emptyInput ↔
      jsTrim xml = [])
    ∧ (jsTrim xml = [] →
        xmlDocumentNew lexer xml = xmlDocumentNew lexer2 xml) := by
  constructor
  · constructor
    · intro h
      by_cases he : (jsTrim xml).isEmpty
      · exact List.isEmpty_iff.mp he
      · exfalso
        unfold xmlDocumentNew at h
        rw [if_neg he] at h
        cases hp : processEvents (lexer (jsTrim xml)) initState with
        | ok st => rw [hp] at h; cases h
        | error e2 =>
          rw [hp] at h
          injection h with h2
          exact processEvents_ne_emptyInput _ _ (by rw [hp, h2])
    · intro he
      unfold xmlDocumentNew
      rw [if_pos (List.isEmpty_iff.mpr he)]
  · intro he
    unfold xmlDocumentNew
    rw [if_pos (List.isEmpty_iff.mpr he), if_pos (List.isEmpty_iff.mpr he)]

theorem c5_witness :
    xmlDocumentNew (fun _ => []) (js "   ") =
      Except.error BuildError.emptyInput :=
  (c5_emptyInput_iff (fun _ => []) (fun _ => []) (js "   ")).1.mpr (by decide)

theorem childrenNamedGo_eq_filter (name : JStr) (l : List XmlNode) :
    childrenNamedGo name l = l.filter (isElementNamed name) := by
  induction l with
  | nil => rfl
  | cons c rest ih =>
    cases c with
    | element n a v ch li co po stp =>
      by_cases h : n = name <;>
        simp [childrenNamedGo, isElementNamed, List.filter, h, ih]
    | text s => simp [childrenNamedGo, isElementNamed, List.filter, ih]
    | cdata s => simp [childrenNamedGo, isElementNamed, List.filter, ih]
    | comment s => simp [childrenNamedGo, isElementNamed, List.filter, ih]

/-- C8: `childrenNamed` is the filter of `children` keeping exactly the
Element children named `name`: a subsequence in original order whose
members are all Elements with that name. -/
theorem c8_childrenNamed_filter (e : XmlNode) (name : JStr) :
    childrenNamed e name = e.childrenOf.filter (isElementNamed name)
    ∧ (childrenNamed e name).Sublist e.childrenOf
    ∧ ∀ c ∈ childrenNamed e name,
        c.typeOf = js "element" ∧ c.nameOf = some name := by
  have hf : childrenNamed e name = e.childrenOf.filter (isElementNamed name) :=
    childrenNamedGo_eq_filter name e.childrenOf
  refine ⟨hf, hf ▸ List.filter_sublist _, ?_⟩
  intro c hc
  rw [hf, List.mem_filter] at hc
  cases c with
  | element n a v ch li co po stp =>
    have : n = name := by simpa [isElementNamed] using hc.2
    subst this
    exact ⟨rfl, rfl⟩
  | text s => simp [isElementNamed] at hc
  | cdata s => simp [isElementNamed] at hc
  | comment s => simp [isElementNamed] at hc

theorem c8_witness :
    (childrenNamed booksC8 (js "book")).Sublist booksC8.childrenOf :=
  (c8_childrenNamed_filter booksC8 (js "book")).2.1

theorem childWithAttributeGo_none_eq_find (name : JStr) (l : List XmlNode) :
    childWithAttributeGo name none l = l.find? (elemAttrTruthy name) := by
  induction l with
  | nil => rfl
  | cons c rest ih =>
    cases c with
    | element n a v ch li co po stp =>
      by_cases h : jsTruthy (attrLookup a name) = true <;>
        simp [childWithAttributeGo, elemAttrTruthy, List.find?, h, ih]
    | text s => simp [childWithAttributeGo, elemAttrTruthy, List.find?, ih]
    | cdata s => simp [childWithAttributeGo, elemAttrTruthy, List.find?, ih]
    | comment s => simp [childWithAttributeGo, elemAttrTruthy, List.find?, ih]

theorem childWithAttributeGo_some_eq_find (name v : JStr) (l : List XmlNode) :
    childWithAttributeGo name (some v) l = l.find? (elemAttrEq name v) := by
  induction l with
  | nil => rfl
  | cons c rest ih =>
    cases c with
    | element n a v2 ch li co po stp =>
      by_cases h : attrLookup a name = some v <;>
        simp [childWithAttributeGo, elemAttrEq, List.find?, h, ih]
    | text s => simp [childWithAttributeGo, elemAttrEq, List.find?, ih]
    | cdata s => simp [childWithAttributeGo, elemAttrEq, List.find?, ih]
    | comment s => simp [childWithAttributeGo, elemAttrEq, List.find?, ih]

/-- C7 (amended): without a value argument, `childWithAttribute` returns
the first Element child whose attribute `name` is *truthy* (defined and
non-empty) — not merely defined — and returns `undefined` exactly when no
Element child has a truthy value for that key; with a value argument it
returns the first Element child whose attribute equals it. -/
theorem c7_childWithAttribute_truthy (e : XmlNode) (name v : JStr) :
    childWithAttribute e name none =
      e.childrenOf.find? (elemAttrTruthy name)
    ∧ childWithAttribute e name (some v) =
      e.childrenOf.find? (elemAttrEq name v)
    ∧ (childWithAttribute e name none = none ↔
        ∀ c ∈ e.childrenOf, ¬ elemAttrTruthy name c) := by
  refine ⟨childWithAttributeGo_none_eq_find name e.childrenOf,
    childWithAttributeGo_some_eq_find name v e.childrenOf, ?_⟩
  rw [show childWithAttribute e name none = _ from
    childWithAttributeGo_none_eq_find name e.childrenOf]
  exact List.find?_eq_none

theorem c7_counterexample :
    childWithAttribute c7Parent (js "a") none = none
    ∧ attrLookup c7Child.attrOf (js "a") = some []
    ∧ c7Child ∈ c7Parent.childrenOf
    ∧ c7Child.typeOf = js "element" := by
  refine ⟨rfl, rfl, ?_, rfl⟩
  show c7Child ∈ [c7Child]
  exact List.mem_singleton.mpr rfl

theorem c7_witness :
    childWithAttribute c7Parent (js "a") (some []) =
      c7Parent.childrenOf.find? (elemAttrEq (js "a") []) :=
  (c7_childWithAttribute_truthy c7Parent (js "a") []).2.1

theorem eachChildGo_eq_stopAtFalse (f : XmlNode → Nat → List XmlNode → JsValue)
    (all : List XmlNode) (l : List XmlNode) (i : Nat) :
    eachChildGo f all l i = stopAtFalse f all (elementEntriesFrom i l) := by
  induction l generalizing i with
  | nil => rfl
  | cons c rest ih =>
    cases c with
    | element n a v ch li co po stp =>
      by_cases h : f (XmlNode.element n a v ch li co po stp) i all
          = JsValue.boolean false <;>
        simp [eachChildGo, elementEntriesFrom, stopAtFalse, h, ih]
    | text s => simp [eachChildGo, elementEntriesFrom, ih]
    | cdata s => simp [eachChildGo, elementEntriesFrom, ih]
    | comment s => simp [eachChildGo, elementEntriesFrom, ih]

/-- C10: the calls `eachChild` makes are exactly the Element children (with
their indices in `children`, in document order: Text/CData/Comment children
are skipped without a call), cut — inclusively — at the first call whose
result is strictly the boolean `false`; any other result, the other falsy
values `undefined`, `0` and the empty string included, does not stop the
iteration. -/
theorem c10_eachChild_trace (e : XmlNode)
    (f : XmlNode → Nat → List XmlNode → JsValue) :
    eachChildTrace e f = stopAtFalse f e.childrenOf
      (elementEntries e.childrenOf) :=
  eachChildGo_eq_stopAtFalse f e.childrenOf e.childrenOf 0

/-- C2: evaluated at `<root><child/></root>`, whose second event carries
the lexer's counters `line 1, column 14, position 14, startTagPosition 7`,
the build succeeds but the `<child>` element's `line`, `column`,
`position` and `startTagPosition` are all null: `_opentag` constructs the
child without passing the parser, so the counters the event carried are
dropped, contradicting the claim (and the position fields' own
documentation). -/
theorem c2_positions_dropped :
    (lexerC2 (js "<root><child/></root>"))[1]? =
      some (SaxEvent.opentag (js "child") [] ⟨1, 14, 14, 7⟩)
    ∧ xmlDocumentNew lexerC2 (js "<root><child/></root>") =
      Except.ok docC2 :=
  ⟨rfl, rfl⟩

theorem c3_counterexample :
    processEvents
      [SaxEvent.opentag (js "r") [] ⟨1, 3, 3, 1⟩, SaxEvent.closetag,
       SaxEvent.closetag] initState =
    Except.ok stateC3 :=
  rfl

/-- C3 (amended): a close-tag event never raises an error, however
unbalanced the stream: it pops the stack front, the close that reaches a
stack holding only the Document removes the Document itself, and further
closes on the emptied stack are silently ignored. -/
theorem c3_close_never_errors (st : BuildState) (d : DocFrame) :
    (step st SaxEvent.closetag).isOk = true
    ∧ step { doc := d, stack := StackSt.docPresent [] } SaxEvent.closetag
        = Except.ok { doc := d, stack := StackSt.docRemoved }
    ∧ step { doc := d, stack := StackSt.docRemoved } SaxEvent.closetag
        = Except.ok { doc := d, stack := StackSt.docRemoved } := by
  refine ⟨?_, rfl, rfl⟩
  rcases st with ⟨d2, fs | _⟩
  · rcases fs with _ | ⟨f, _ | ⟨g, fs⟩⟩ <;> rfl
  · rfl

theorem c3_witness :
    step { doc := initDoc, stack := StackSt.docRemoved } SaxEvent.closetag
      = Except.ok { doc := initDoc, stack := StackSt.docRemoved } :=
  (c3_close_never_errors initState initDoc).2.2

theorem c4_counterexample :
    xmlDocumentNew lexerC4 (js "<a><b>") = Except.ok docC4 :=
  rfl

theorem step_isOk (st : BuildState) (e : SaxEvent)
    (he : e.isErrorEvent = false) (hd : e.isDoctypeEvent = false) :
    ∃ st', step st e = Except.ok st' := by
  cases e with
  | error msg => simp [SaxEvent.isErrorEvent] at he
  | doctype s => simp [SaxEvent.isDoctypeEvent] at hd
  | opentag n a p =>
    rcases st with ⟨d, fs | _⟩
    · rcases fs with _ | ⟨f, fs⟩
      · dsimp only [step]
        split <;> exact ⟨_, rfl⟩
      · exact ⟨_, rfl⟩
    · exact ⟨_, rfl⟩
  | closetag =>
    rcases st with ⟨d, fs | _⟩
    · rcases fs with _ | ⟨f, _ | ⟨g, fs⟩⟩ <;> exact ⟨_, rfl⟩
    · exact ⟨_, rfl⟩
  | text s =>
    rcases st with ⟨d, fs | _⟩
    · rcases fs with _ | ⟨f, fs⟩ <;> exact ⟨_, rfl⟩
    · exact ⟨_, rfl⟩
  | cdata s =>
    rcases st with ⟨d, fs | _⟩
    · rcases fs with _ | ⟨f, fs⟩ <;> exact ⟨_, rfl⟩
    · exact ⟨_, rfl⟩
  | comment s =>
    rcases st with ⟨d, fs | _⟩
    · rcases fs with _ | ⟨f, fs⟩ <;> exact ⟨_, rfl⟩
    · exact ⟨_, rfl⟩

theorem processEvents_isOk (evs : List SaxEvent) (st : BuildState)
    (h : ∀ e ∈ evs, e.isErrorEvent = false ∧ e.isDoctypeEvent = false) :
    ∃ st', processEvents evs st = Except.ok st' := by
  induction evs generalizing st with
  | nil => exact ⟨st, rfl⟩
  | cons e rest ih =>
    obtain ⟨st1, h1⟩ := step_isOk st e (h e (List.mem_cons_self e rest)).1
      (h e (List.mem_cons_self e rest)).2
    obtain ⟨st2, h2⟩ := ih st1 (fun x hx => h x (List.mem_cons_of_mem e hx))
    exact ⟨st2, by simp only [processEvents]; rw [h1]; exact h2⟩

/-- C4 (amended): the constructor surfaces a fatal error only when the
lexer delivers an error event (or a doctype event reaches the emptied
stack); when the event stream merely ends while elements are still open,
no end-of-input balance check exists and the partially built Document is
returned without error. -/
theorem c4_no_end_check (lexer : JStr → List SaxEvent) (xml : JStr)
    (h1 : jsTrim xml ≠ [])
    (h2 : ∀ e ∈ lexer (jsTrim xml),
      e.isErrorEvent = false ∧ e.isDoctypeEvent = false) :
    (xmlDocumentNew lexer xml).isOk = true := by
  unfold xmlDocumentNew
  rw [if_neg (by simpa [List.isEmpty_iff] using h1)]
  obtain ⟨st, hst⟩ := processEvents_isOk (lexer (jsTrim xml)) initState h2
  rw [hst]
  rfl

theorem c4_witness :
    (xmlDocumentNew lexerC4 (js "<a><b>")).isOk = true :=
  c4_no_end_check lexerC4 (js "<a><b>") (by decide) (by decide)

theorem mem_dropWhile_iff_of_neg (p : Char → Bool) (c : Char)
    (hc : p c = false) (l : JStr) : c ∈ l.dropWhile p ↔ c ∈ l := by
  constructor
  · exact fun h => (List.dropWhile_sublist p).subset h
  · intro h
    induction l with
    | nil => cases h
    | cons a rest ih =>
      by_cases ha : p a
      · rw [List.dropWhile_cons_of_pos ha]
        rcases List.mem_cons.mp h with rfl | h2
        · rw [hc] at ha; cases ha
        · exact ih h2
      · rwa [List.dropWhile_cons_of_neg ha]

theorem mem_jsTrim_iff (c : Char) (hc : c.isWhitespace = false) (l : JStr) :
    c ∈ jsTrim l ↔ c ∈ l := by
  unfold jsTrim
  rw [List.mem_reverse, mem_dropWhile_iff_of_neg _ c hc, List.mem_reverse,
    mem_dropWhile_iff_of_neg _ c hc]

theorem ellipsisChar_not_ws : ellipsisChar.isWhitespace = false := by decide

theorem mem_escapeChar (c d : Char) (h : c ∈ escapeChar d)
    (hc : c = ellipsisChar) : d = ellipsisChar := by
  unfold escapeChar at h
  subst hc
  split at h
  · cases (by decide : ellipsisChar ∉ js "&amp;") h
  · split at h
    · cases (by decide : ellipsisChar ∉ js "&lt;") h
    · split at h
      · cases (by decide : ellipsisChar ∉ js "&gt;") h
      · split at h
        · cases (by decide : ellipsisChar ∉ js "&apos;") h
        · split at h
          · cases (by decide : ellipsisChar ∉ js "&quot;") h
          · exact (List.mem_singleton.mp h).symm

theorem ellipsis_not_mem_escapeXML (s : JStr) (hs : ellipsisChar ∉ s) :
    ellipsisChar ∉ escapeXML s := by
  intro h
  unfold escapeXML at h
  obtain ⟨t, ht, hmem⟩ := List.mem_flatten.mp h
  obtain ⟨d, hd, rfl⟩ := List.mem_map.mp ht
  exact hs (mem_escapeChar ellipsisChar d hmem rfl ▸ hd)

theorem formatText_ellipsis_iff (t : JStr) (o : XmlStringOptions)
    (ht : o.trimmed = true) (hn : ellipsisChar ∉ t) :
    (ellipsisChar ∈ formatText t o ↔ 25 < t.length) := by
  unfold formatText
  by_cases hl : 25 < t.length
  · have hmem : ellipsisChar ∈ jsTrim (t.take 25) ++ [ellipsisChar] :=
      List.mem_append.mpr (Or.inr (List.mem_singleton.mpr rfl))
    cases hp : o.preserveWhitespace <;>
      simp [ht, hl, hp, mem_jsTrim_iff _ ellipsisChar_not_ws, hmem]
  · have hnt : ellipsisChar ∉ jsTrim t :=
      fun h => hn ((mem_jsTrim_iff _ ellipsisChar_not_ws t).mp h)
    cases hp : o.preserveWhitespace <;> simp [ht, hl, hp, hn, hnt]

/-- C6 (amended): with `trimmed` on, the ellipsis marker appears in a
rendered Text or Comment node exactly when the *escaped* content exceeds
25 characters (the threshold is tested after entity escaping, since
`toString` passes `escapeXML(text)` to `formatText`), and in a rendered
CData node exactly when the raw content exceeds 25 characters (CData is
not escaped). -/
theorem c6_trimmed_threshold (s : JStr) (o : XmlStringOptions)
    (ht : o.trimmed = true) (hs : ellipsisChar ∉ s) :
    (ellipsisChar ∈ textNodeToString s o ↔ 25 < (escapeXML s).length)
    ∧ (ellipsisChar ∈ cdataNodeToString s o ↔ 25 < s.length)
    ∧ (ellipsisChar ∈ commentNodeToString s o ↔ 25 < (escapeXML s).length) := by
  have hesc := ellipsis_not_mem_escapeXML s hs
  refine ⟨formatText_ellipsis_iff _ o ht hesc, ?_, ?_⟩
  · unfold cdataNodeToString
    rw [List.mem_append, List.mem_append]
    have h1 : ellipsisChar ∉ js "<![CDATA[" := by decide
    have h2 : ellipsisChar ∉ js "]]>" := by decide
    simp only [h1, h2, false_or, or_false]
    exact formatText_ellipsis_iff _ o ht hs
  · unfold commentNodeToString
    rw [List.mem_append, List.mem_append]
    have h1 : ellipsisChar ∉ js "<!--" := by decide
    have h2 : ellipsisChar ∉ js "-->" := by decide
    simp only [h1, h2, false_or, or_false]
    exact formatText_ellipsis_iff _ o ht hesc

theorem c6_counterexample :
    textNodeToString (js "&&&&&&&&&&") trimmedOpts =
      js "&amp;&amp;&amp;&amp;&amp;…"
    ∧ (js "&&&&&&&&&&").length ≤ 25
    ∧ (escapeXML (js "&&&&&&&&&&")).length = 50 := by
  refine ⟨?_, by decide, by decide⟩
  rfl

theorem c6_witness :
    (ellipsisChar ∈ textNodeToString (js "&&&&&&&&&&") trimmedOpts ↔
      25 < (escapeXML (js "&&&&&&&&&&")).length)
    ∧ (ellipsisChar ∈ cdataNodeToString (js "&&&&&&&&&&") trimmedOpts ↔
      25 < (js "&&&&&&&&&&").length)
    ∧ (ellipsisChar ∈ commentNodeToString (js "&&&&&&&&&&") trimmedOpts ↔
      25 < (escapeXML (js "&&&&&&&&&&")).length) :=
  c6_trimmed_threshold (js "&&&&&&&&&&") trimmedOpts rfl (by decide)

theorem childNamedGo_isElement (name : JStr) (l : List XmlNode)
    (c : XmlNode) (h : childNamedGo name l = some c) :
    c.typeOf = js "element" := by
  induction l with
  | nil => cases h
  | cons x rest ih =>
    cases x with
    | element n a v ch li co po stp =>
      by_cases hn : n = name
      · rw [childNamedGo, if_pos hn] at h
        injection h with h2
        rw [← h2]
        rfl
      · rw [childNamedGo, if_neg hn] at h
        exact ih h
    | text s => exact ih h
    | cdata s => exact ih h
    | comment s => exact ih h

theorem descendGo_none (segs : List JStr) : descendGo none segs = none := by
  cases segs <;> rfl

theorem descendGo_resolves (e : XmlNode) (segs : List JStr) (d : XmlNode)
    (he : e.typeOf = js "element") :
    descendGo (some e) segs = some d ↔ ResolvePath e segs d := by
  induction segs generalizing e with
  | nil =>
    constructor
    · intro h
      injection h with h2
      exact h2 ▸ ResolvePath.nil e
    · intro h
      cases h
      rfl
  | cons seg rest ih =>
    rw [show descendGo (some e) (seg :: rest)
        = if e.typeOf = js "element" then descendGo (childNamed e seg) rest
          else none from rfl, if_pos he]
    cases hm : childNamed e seg with
    | none =>
      rw [descendGo_none]
      constructor
      · intro h; cases h
      · intro h
        cases h with
        | cons _ m _ _ _ hm2 hr => rw [hm] at hm2; cases hm2
    | some m =>
      have hme : m.typeOf = js "element" := childNamedGo_isElement seg _ m hm
      rw [ih m hme]
      constructor
      · exact fun h => ResolvePath.cons e m d seg rest hm h
      · intro h
        cases h with
        | cons _ m2 _ _ _ hm2 hr =>
          rw [hm] at hm2
          injection hm2 with hm3
          exact hm3 ▸ hr

/-- C9: `descendantWithPath` and `valueWithPath` are total functions into
an option type — never an error: `descendantWithPath` returns `some d`
exactly when following `childNamed` through the dot-separated segments
resolves to `d` (so `none` exactly when some segment fails), and
`valueWithPath` returns, for a resolved path, the resolved element's `val`
(no `@` part) or the named attribute's value (`@` part), and `none`
whenever the path part does not resolve. -/
theorem c9_paths_total (e : XmlNode) (path : JStr) (d : XmlNode)
    (he : e.typeOf = js "element") :
    (descendantWithPath e path = some d ↔
      ResolvePath e (path.splitOn dotChar) d)
    ∧ (descendantWithPath e ((path.splitOn atChar).headD []) = some d →
        valueWithPath e path =
          (match path.splitOn atChar with
           | _ :: attrName :: _ => attrLookup d.attrOf attrName
           | _ => some d.valOf))
    ∧ (descendantWithPath e ((path.splitOn atChar).headD []) = none →
        valueWithPath e path = none) := by
  refine ⟨descendGo_resolves e _ d he, ?_, ?_⟩
  · intro h
    simp only [valueWithPath]
    rw [h]
  · intro h
    simp only [valueWithPath]
    rw [h]

theorem c9_witness :
    valueWithPath bookC9 (js "author.name@isProper") = some (js "true") :=
  (c9_paths_total bookC9 (js "author.name@isProper") nameC9 rfl).2.1 rfl

theorem textCdataConcat_append (l1 l2 : List XmlNode) :
    textCdataConcat (l1 ++ l2) = textCdataConcat l1 ++ textCdataConcat l2 := by
  induction l1 with
  | nil => rfl
  | cons x rest ih => cases x <;> simp [textCdataConcat, ih]

theorem nodesOk_append (l : List XmlNode) (x : XmlNode)
    (h : ∀ y ∈ l, ValOk y) (hx : ValOk x) : ∀ y ∈ l ++ [x], ValOk y := by
  intro y hy
  rcases List.mem_append.mp hy with h1 | h1
  · exact h y h1
  · rw [List.mem_singleton.mp h1]
    exact hx

theorem closeFrame_valOk (f : ElemFrame) (h : FrameOk f) :
    ValOk (closeFrame f) :=
  ValOk.element _ _ _ _ _ _ _ _ h.1 h.2

theorem frameOk_append_closed (g : ElemFrame) (f : ElemFrame)
    (hg : FrameOk g) (hf : FrameOk f) :
    FrameOk { g with children := g.children ++ [closeFrame f] } := by
  constructor
  · show g.val = textCdataConcat (g.children ++ [closeFrame f])
    rw [textCdataConcat_append,
      show textCdataConcat [closeFrame f] = [] from rfl, List.append_nil]
    exact hg.1
  · exact nodesOk_append _ _ hg.2 (closeFrame_valOk f hf)

theorem docOk_append_closed (d : DocFrame) (f : ElemFrame)
    (hd : DocOk d) (hf : FrameOk f) :
    DocOk { d with children := d.children ++ [closeFrame f] } := by
  constructor
  · show d.val = textCdataConcat (d.children ++ [closeFrame f])
    rw [textCdataConcat_append,
      show textCdataConcat [closeFrame f] = [] from rfl, List.append_nil]
    exact hd.1
  · exact nodesOk_append _ _ hd.2 (closeFrame_valOk f hf)

theorem frameOk_new (n : JStr) (a : List (JStr × JStr)) :
    FrameOk (mkElemFrame n a none) :=
  ⟨rfl, fun x hx => absurd hx (List.not_mem_nil x)⟩

theorem stateOk_step (st st' : BuildState) (e : SaxEvent)
    (h : StateOk st) (hs : step st e = Except.ok st') : StateOk st' := by
  cases e with
  | opentag n a p =>
    rcases st with ⟨d, fs | _⟩
    · obtain ⟨hdoc, hstack⟩ := h
      rcases fs with _ | ⟨f, fs⟩
      · dsimp only [step] at hs
        split at hs
        · injection hs with h2
          subst h2
          exact ⟨hdoc, hstack⟩
        · injection hs with h2
          subst h2
          refine ⟨hdoc, ?_⟩
          intro g hg
          rw [List.mem_singleton.mp hg]
          exact frameOk_new n a
      · dsimp only [step] at hs
        injection hs with h2
        subst h2
        refine ⟨hdoc, ?_⟩
        intro g hg
        rcases List.mem_cons.mp hg with rfl | hg2
        · exact frameOk_new n a
        · exact hstack g hg2
    · dsimp only [step] at hs
      injection hs with h2
      subst h2
      exact h
  | closetag =>
    rcases st with ⟨d, fs | _⟩
    · obtain ⟨hdoc, hstack⟩ := h
      rcases fs with _ | ⟨f, _ | ⟨g, fs⟩⟩
      · dsimp only [step] at hs
        injection hs with h2
        subst h2
        exact ⟨hdoc, trivial⟩
      · dsimp only [step] at hs
        injection hs with h2
        subst h2
        refine ⟨?_, ?_⟩
        · exact docOk_append_closed d f hdoc
            (hstack f (List.mem_singleton.mpr rfl))
        · intro x hx
          cases hx
      · dsimp only [step] at hs
        injection hs with h2
        subst h2
        refine ⟨hdoc, ?_⟩
        intro x hx
        rcases List.mem_cons.mp hx with rfl | hx2
        · exact frameOk_append_closed g f
            (hstack g (List.mem_cons_of_mem f (List.mem_cons_self g fs)))
            (hstack f (List.mem_cons_self f (g :: fs)))
        · exact hstack x
            (List.mem_cons_of_mem f (List.mem_cons_of_mem g hx2))
    · dsimp only [step] at hs
      injection hs with h2
      subst h2
      exact h
  | text s =>
    rcases st with ⟨d, fs | _⟩
    · obtain ⟨hdoc, hstack⟩ := h
      rcases fs with _ | ⟨f, fs⟩
      · dsimp only [step] at hs
        injection hs with h2
        subst h2
        refine ⟨⟨?_, ?_⟩, ?_⟩
        · show d.val ++ s
            = textCdataConcat (d.children ++ [XmlNode.text s])
          rw [textCdataConcat_append, hdoc.1,
            show textCdataConcat [XmlNode.text s] = s from by
              simp [textCdataConcat]]
        · exact nodesOk_append _ _ hdoc.2 (ValOk.text s)
        · intro x hx
          cases hx
      · dsimp only [step] at hs
        injection hs with h2
        subst h2
        refine ⟨hdoc, ?_⟩
        intro x hx
        rcases List.mem_cons.mp hx with rfl | hx2
        · have hf : FrameOk f := hstack f (List.mem_cons_self f fs)
          refine ⟨?_, nodesOk_append _ _ hf.2 (ValOk.text s)⟩
          show f.val ++ s
            = textCdataConcat (f.children ++ [XmlNode.text s])
          rw [textCdataConcat_append, hf.1,
            show textCdataConcat [XmlNode.text s] = s from by
              simp [textCdataConcat]]
        · exact hstack x (List.mem_cons_of_mem f hx2)
    · dsimp only [step] at hs
      injection hs with h2
      subst h2
      exact h
  | cdata s =>
    rcases st with ⟨d, fs | _⟩
    · obtain ⟨hdoc, hstack⟩ := h
      rcases fs with _ | ⟨f, fs⟩
      · dsimp only [step] at hs
        injection hs with h2
        subst h2
        refine ⟨⟨?_, ?_⟩, ?_⟩
        · show d.val ++ s
            = textCdataConcat (d.children ++ [XmlNode.cdata s])
          rw [textCdataConcat_append, hdoc.1,
            show textCdataConcat [XmlNode.cdata s] = s from by
              simp [textCdataConcat]]
        · exact nodesOk_append _ _ hdoc.2 (ValOk.cdata s)
        · intro x hx
          cases hx
      · dsimp only [step] at hs
        injection hs with h2
        subst h2
        refine ⟨hdoc, ?_⟩
        intro x hx
        rcases List.mem_cons.mp hx with rfl | hx2
        · have hf : FrameOk f := hstack f (List.mem_cons_self f fs)
          refine ⟨?_, nodesOk_append _ _ hf.2 (ValOk.cdata s)⟩
          show f.val ++ s
            = textCdataConcat (f.children ++ [XmlNode.cdata s])
          rw [textCdataConcat_append, hf.1,
            show textCdataConcat [XmlNode.cdata s] = s from by
              simp [textCdataConcat]]
        · exact hstack x (List.mem_cons_of_mem f hx2)
    · dsimp only [step] at hs
      injection hs with h2
      subst h2
      exact h
  | comment s =>
    rcases st with ⟨d, fs | _⟩
    · obtain ⟨hdoc, hstack⟩ := h
      rcases fs with _ | ⟨f, fs⟩
      · dsimp only [step] at hs
        injection hs with h2
        subst h2
        refine ⟨⟨?_, ?_⟩, ?_⟩
        · show d.val
            = textCdataConcat (d.children ++ [XmlNode.comment s])
          rw [textCdataConcat_append,
            show textCdataConcat [XmlNode.comment s] = [] from rfl,
            List.append_nil]
          exact hdoc.1
        · exact nodesOk_append _ _ hdoc.2 (ValOk.comment s)
        · intro x hx
          cases hx
      · dsimp only [step] at hs
        injection hs with h2
        subst h2
        refine ⟨hdoc, ?_⟩
        intro x hx
        rcases List.mem_cons.mp hx with rfl | hx2
        · have hf : FrameOk f := hstack f (List.mem_cons_self f fs)
          refine ⟨?_, nodesOk_append _ _ hf.2 (ValOk.comment s)⟩
          show f.val
            = textCdataConcat (f.children ++ [XmlNode.comment s])
          rw [textCdataConcat_append,
            show textCdataConcat [XmlNode.comment s] = [] from rfl,
            List.append_nil]
          exact hf.1
        · exact hstack x (List.mem_cons_of_mem f hx2)
    · dsimp only [step] at hs
      injection hs with h2
      subst h2
      exact h
  | doctype s =>
    rcases st with ⟨d, fs | _⟩
    · obtain ⟨hdoc, hstack⟩ := h
      rcases fs with _ | ⟨f, fs⟩
      · dsimp only [step] at hs
        injection hs with h2
        subst h2
        exact ⟨hdoc, hstack⟩
      · dsimp only [step] at hs
        injection hs with h2
        subst h2
        exact ⟨hdoc, hstack⟩
    · dsimp only [step] at hs
      cases hs
  | error msg =>
    rcases st with ⟨d, fs | _⟩
    · dsimp only [step] at hs
      cases hs
    · dsimp only [step] at hs
      injection hs with h2
      subst h2
      exact h

theorem stateOk_processEvents (evs : List SaxEvent) (st st' : BuildState)
    (h : StateOk st) (hp : processEvents evs st = Except.ok st') :
    StateOk st' := by
  induction evs generalizing st with
  | nil =>
    injection hp with h2
    exact h2 ▸ h
  | cons e rest ih =>
    simp only [processEvents] at hp
    cases hse : step st e with
    | ok st1 =>
      rw [hse] at hp
      exact ih st1 (stateOk_step st st1 e h hse) hp
    | error err =>
      rw [hse] at hp
      cases hp

theorem collapseTop_ok (f : ElemFrame) (fs : List ElemFrame)
    (hf : FrameOk f) (hfs : ∀ g ∈ fs, FrameOk g) :
    FrameOk (collapseTop f fs) := by
  induction fs generalizing f with
  | nil => exact hf
  | cons g rest ih =>
    rw [collapseTop]
    exact ih _ (frameOk_append_closed g f (hfs g (List.mem_cons_self g rest)) hf)
      (fun x hx => hfs x (List.mem_cons_of_mem g hx))

theorem materialize_ok (st : BuildState) (h : StateOk st) :
    DocOk (materialize st) := by
  rcases st with ⟨d, fs | _⟩
  · obtain ⟨hdoc, hstack⟩ := h
    rcases fs with _ | ⟨f, rest⟩
    · exact hdoc
    · exact docOk_append_closed d _ hdoc
        (collapseTop_ok f rest (hstack f (List.mem_cons_self f rest))
          (fun x hx => hstack x (List.mem_cons_of_mem f hx)))
  · exact h.1

theorem initState_ok : StateOk initState :=
  ⟨⟨rfl, fun x hx => absurd hx (List.not_mem_nil x)⟩,
   fun f hf => absurd hf (List.not_mem_nil f)⟩

/-- C1: for every lexer and input whose build succeeds, every element of
the resulting document — the root included — has `val` equal to the
ordered, separator-free concatenation of the `text`/`cdata` content of
exactly its direct Text and CData children; nested element content and
comment content contribute nothing (`ValOk` states this recursively for
the whole tree). -/
theorem c1_val_direct_concat (lexer : JStr → List SaxEvent) (xml : JStr)
    (doc : DocFrame) (h : xmlDocumentNew lexer xml = Except.ok doc) :
    ValOk (docToNode doc) := by
  simp only [xmlDocumentNew] at h
  split at h
  · cases h
  · cases hp : processEvents (lexer (jsTrim xml)) initState with
    | ok st =>
      rw [hp] at h
      injection h with h2
      subst h2
      have hok := stateOk_processEvents _ _ _ initState_ok hp
      have hd := materialize_ok st hok
      exact ValOk.element _ _ _ _ _ _ _ _ hd.1 hd.2
    | error err =>
      rw [hp] at h
      cases h

theorem c1_witness : ValOk (docToNode docC1) :=
  c1_val_direct_concat lexerC1 (js "<hello>world</hello>") docC1 rfl

end Xmldoc
